import Mathlib

/-!
Shallow embedding of the conversation-turn pipeline of the
multi-agent chatbot frontend (`ChatService`, `ModelContextService`,
`LlmClientService`) and proofs of the specification's testable
properties.

Conventions of the embedding:
* TypeScript `undefined`-able fields become `Option`.
* JS numbers that the code computes exactly (relevance scores, token
  counts) become `Rat` (written ℚ) or `Nat`; `Number(x).toFixed(2)`
  is modelled by exact rounding to two decimals.
* Nondeterministic inputs of the code (`uuid()`,
  `new Date().toISOString()`, `Date.now()` latencies) become explicit
  parameters: streams `ids nows : Nat → String` and a `latency : Nat`.
* JS string `.length` / `.slice` are modelled by `String.length` /
  `List.take` on the character list.
-/

/-! ## Data model (`context.models.ts`, `chat.models.ts`) -/

/-- Models `ProtocolStepType` from `context.models.ts`. -/
inductive StepType where
  | plan | retrieve | rerank | pack | generate | reflect | tool | route | error
deriving DecidableEq, Repr

/-- Models `ProtocolActor` from `context.models.ts`. -/
structure ProtocolActor where
  id : String
  name : String
  icon : Option String := none
deriving DecidableEq, Repr

/-- Models the `type` union of `ContextWindowItem` in `context.models.ts`. -/
inductive CtxKind where
  | system | instruction | history | retrieval | tool | scratchpad
deriving DecidableEq, Repr

/-- Models `ContextWindowItem` from `context.models.ts`; the `type`
field is called `kind` here. -/
structure ContextWindowItem where
  id : String
  kind : CtxKind
  text : String
  tokens : Option Nat := none
  origin : Option String := none
deriving DecidableEq, Repr

/-- Models the `tokens` record of `ModelCallInfo`. -/
structure TokenUsage where
  prompt : Option ℚ := none
  completion : Option ℚ := none
  total : Option ℚ := none
deriving DecidableEq, Repr

/-- Models `ModelCallInfo` from `context.models.ts`. -/
structure ModelCallInfo where
  model : String
  params : Option (List (String × ℚ)) := none
  tokens : Option TokenUsage := none
  latencyMs : Option ℚ := none
deriving DecidableEq, Repr

/-- Models `ProtocolInput` / `ProtocolOutput` from `context.models.ts`;
the free-form `fields` record only ever holds numeric values in the
service, so it is a string-keyed list of naturals. -/
structure ProtocolIO where
  text : Option String := none
  fields : Option (List (String × Nat)) := none
deriving DecidableEq, Repr

/-- Models `RagChunk` from `chat.models.ts` (also the shape of
`RetrievalItem` in `context.models.ts`). -/
structure RagChunk where
  id : String
  source : String
  title : Option String := none
  snippet : String
  score : Option ℚ := none
  url : Option String := none
deriving DecidableEq, Repr

/-- Models `RetrievalBatch` from `context.models.ts`. -/
structure RetrievalBatch where
  query : String
  items : List RagChunk
deriving DecidableEq, Repr

/-- Models `ProtocolStep` from `context.models.ts`; the `at` timestamp
field is renamed `atISO` (`at` is reserved in Lean). -/
structure ProtocolStep where
  id : String
  atISO : String
  type : StepType
  actor : ProtocolActor
  input : Option ProtocolIO := none
  output : Option ProtocolIO := none
  retrieval : Option RetrievalBatch := none
  contextWindow : Option (List ContextWindowItem) := none
  model : Option ModelCallInfo := none
  note : Option String := none
deriving DecidableEq, Repr

/-- Models `ModelContextProtocol` from `context.models.ts`. -/
structure ModelContextProtocol where
  turnId : String
  steps : List ProtocolStep
deriving DecidableEq, Repr

/-- Models `Role` from `chat.models.ts`. -/
inductive Role where
  | user | agent | system
deriving DecidableEq, Repr

/-- Models `RagContext` from `chat.models.ts`. -/
structure RagContext where
  query : String
  chunks : List RagChunk
  usedAt : String
deriving DecidableEq, Repr

/-- Models `Message` from `chat.models.ts`. -/
structure Message where
  id : String
  role : Role
  content : String
  timestamp : String
  agentId : Option String := none
  context : Option RagContext := none
  llm : Option ModelCallInfo := none
  protocolTurnId : Option String := none
deriving DecidableEq, Repr

/-! ## ProtocolTimelineStore (`ModelContextService`)

The service keeps a `Record<string, ModelContextProtocol>`; a JS record
is modelled as a function from keys to optional values. -/

/-- Models the state of `ModelContextService.protocols$`. -/
def ProtocolStore : Type := String → Option ModelContextProtocol

/-- Models `ModelContextService.addProtocol`: create an empty protocol
timeline for a turn if not exists. -/
def addProtocol (store : ProtocolStore) (turnId : String) : ProtocolStore :=
  if (store turnId).isSome then store
  else fun t => if t = turnId then some { turnId := turnId, steps := [] } else store t

/-- Models `ModelContextService.appendStep`: append a step to a turn
protocol timeline, creating the timeline first when missing. -/
def appendStep (store : ProtocolStore) (turnId : String) (step : ProtocolStep) : ProtocolStore :=
  let s := if (store turnId).isSome then store else addProtocol store turnId
  fun t =>
    if t = turnId then
      some { turnId := ((s turnId).getD { turnId := turnId, steps := [] }).turnId,
             steps := ((s turnId).getD { turnId := turnId, steps := [] }).steps ++ [step] }
    else s t

/-- Models `ModelContextService.get`. -/
def getProtocol (store : ProtocolStore) (turnId : String) : Option ModelContextProtocol :=
  store turnId

/-- Folds `appendStep` over a list of steps (how the pipeline's
successive `this.mcp.appendStep(turnId, ...)` calls act on the store). -/
def appendSteps (store : ProtocolStore) (turnId : String) (steps : List ProtocolStep) : ProtocolStore :=
  steps.foldl (fun st s => appendStep st turnId s) store

/-! ## Whitespace handling and input sanitization (`sendMessage`) -/

/-- Models the JS regex class `\s` (ECMAScript WhiteSpace and
LineTerminator code points). -/
def isJsWs (c : Char) : Bool :=
  c == ' ' || c == '\t' || c == '\n' || c == '\r' || c == '\u000B' || c == '\u000C' ||
  c == ' ' || c == ' ' || c == ' ' || c == ' ' || c == ' ' ||
  c == ' ' || c == ' ' || c == ' ' || c == ' ' || c == ' ' ||
  c == ' ' || c == ' ' || c == ' ' || c == ' ' || c == ' ' ||
  c == ' ' || c == ' ' || c == '　' || c == '﻿'

/-- Models `.replace(/\s+/g, ' ')`: every maximal run of whitespace
becomes a single space (a whitespace character followed by more
whitespace is dropped; the last one of a run becomes `' '`). -/
def collapseWs : List Char → List Char
  | [] => []
  | [c] => if isJsWs c then [' '] else [c]
  | c :: d :: cs =>
    if isJsWs c then
      if isJsWs d then collapseWs (d :: cs)
      else ' ' :: collapseWs (d :: cs)
    else c :: collapseWs (d :: cs)

/-- Models removal of leading JS whitespace (half of `.trim()`). -/
def ltrimWs (l : List Char) : List Char := l.dropWhile isJsWs

/-- Models removal of trailing JS whitespace (half of `.trim()`). -/
def rtrimWs (l : List Char) : List Char := (l.reverse.dropWhile isJsWs).reverse

/-- Models `.trim()`. -/
def trimWs (l : List Char) : List Char := rtrimWs (ltrimWs l)

/-- Models the sanitization in `ChatService.sendMessage`:
`raw.replace(/\s+/g, ' ').trim().slice(0, 4000)`. -/
def sanitizeContent (raw : String) : String :=
  String.mk ((trimWs (collapseWs raw.data)).take 4000)

/-- The maximal runs of non-whitespace characters of a string, in
order (the specification's view of sanitization: the words survive,
separators collapse). -/
def wordsOf (l : List Char) : List (List Char) :=
  match h : l.dropWhile isJsWs with
  | [] => []
  | c :: cs =>
    ((c :: cs).takeWhile (fun x => !isJsWs x)) ::
      wordsOf ((c :: cs).dropWhile (fun x => !isJsWs x))
termination_by l.length
decreasing_by
  have hc : isJsWs c = false := by
    have w : l.dropWhile isJsWs ≠ [] := by simp [h]
    have hh := List.head_dropWhile_not isJsWs l w
    simpa [h] using hh
  have h1 : ((c :: cs).dropWhile (fun x => !isJsWs x)).length ≤ cs.length := by
    rw [List.dropWhile_cons]
    simp only [hc, Bool.not_false, if_pos]
    exact (List.dropWhile_sublist _).length_le
  have h2 : (c :: cs).length ≤ l.length := by
    calc (c :: cs).length = (l.dropWhile isJsWs).length := by rw [h]
      _ ≤ l.length := (List.dropWhile_sublist _).length_le
  simp only [List.length_cons] at h2 ⊢
  omega

/-- Joins word lists with single spaces (models both the effect of a
collapsed/trimmed string and JS `Array.prototype.join(' ')`). -/
def joinWords : List (List Char) → List Char
  | [] => []
  | [w] => w
  | w :: ws => w ++ ' ' :: joinWords ws

/-- Sanitization as the specification words it: maximal whitespace
runs collapsed to one space, ends trimmed, capped at 4000 characters —
expressed as the words of the input joined by single spaces. -/
def specSanitize (raw : String) : String :=
  String.mk ((joinWords (wordsOf raw.data)).take 4000)

/-! ## Query reformulation (`rewriteQueryForRetrieval`) -/

/-- Models the JS regex class `\w` (ASCII letters, digits, underscore),
which is what the `\b` boundary in the filler-phrase regex tests. -/
def isWordChar (c : Char) : Bool := c.isAlpha || c.isDigit || c == '_'

/-- A `\b` word boundary holds right after a filler phrase (which ends
in a letter) iff what follows starts with a non-word character or is
the end of the string. -/
def afterBoundary : List Char → Bool
  | [] => true
  | c :: _ => !isWordChar c

/-- The alternatives of the filler regex
`\b(please|kindly|can you|could you|would you|thanks|thank you)\b`,
in the regex's alternation order. -/
def fillerPhrases : List (List Char) :=
  ["please".data, "kindly".data, "can you".data, "could you".data,
   "would you".data, "thanks".data, "thank you".data]

/-- Tries the filler alternatives in order at the current position and
returns the length of the first one that matches with a trailing word
boundary (regex alternation with backtracking over the trailing `\b`). -/
def matchFillerAux : List (List Char) → List Char → Option Nat
  | [], _ => none
  | f :: fs, l =>
    if f.isPrefixOf l && afterBoundary (l.drop f.length) then some f.length
    else matchFillerAux fs l

/-- Matching one filler phrase (with its trailing boundary) at the
current position. -/
def matchFiller (l : List Char) : Option Nat := matchFillerAux fillerPhrases l

/-- Models the global replace
`.replace(/\b(please|kindly|can you|could you|would you|thanks|thank you)\b/g, '')`.
`prevWord` says whether the previous character of the original string
is a word character (so whether the leading `\b` fails: every filler
phrase starts with a letter).  Every filler phrase has length ≥ 6, so
dropping `n - 1` characters of `cs` is the same as dropping the `n`
matched characters of `c :: cs`; phrasing it this way makes the
recursion obviously terminating.  A matched phrase ends in a letter,
so after a match `prevWord` is true.  The recursion is made structural
on a fuel argument; every step consumes at least one character, so a
fuel of the string's length never runs out and the fuel-exhausted
default is never reached. -/
def stripFillersFuel : Nat → Bool → List Char → List Char
  | _, _, [] => []
  | 0, _, l => l
  | fuel + 1, prevWord, c :: cs =>
    match (if prevWord then none else matchFiller (c :: cs)) with
    | some n => stripFillersFuel fuel true (cs.drop (n - 1))
    | none => c :: stripFillersFuel fuel (isWordChar c) cs

/-- The filler-phrase global replace, with the fuel instantiated. -/
def stripFillers (prevWord : Bool) (l : List Char) : List Char :=
  stripFillersFuel l.length prevWord l

/-- Models `.replace(/[^a-z0-9\s-]/g, ' ')` character-wise. -/
def replaceNonAlnum (c : Char) : Char :=
  if ('a' ≤ c ∧ c ≤ 'z') ∨ ('0' ≤ c ∧ c ≤ '9') ∨ isJsWs c = true ∨ c = '-' then c
  else ' '

/-- Models JS `String.prototype.split(sep)` for a one-character
separator (empty segments are kept; splitting the empty string yields
one empty segment). -/
def splitOnChar (sep : Char) : List Char → List (List Char)
  | [] => [[]]
  | c :: cs =>
    match splitOnChar sep cs with
    | [] => [[c]]
    | w :: rest => if c = sep then [] :: w :: rest else (c :: w) :: rest

/-- Models `ChatService.rewriteQueryForRetrieval`. -/
def rewriteQueryForRetrieval (text : String) : String :=
  let lowered := text.data.map Char.toLower
  let noFiller := stripFillers false lowered
  let alnum := noFiller.map replaceNonAlnum
  let cleaned := trimWs (collapseWs alnum)
  String.mk (joinWords ((splitOnChar ' ' cleaned).take 10))

/-! ## Retrieval (`mockRag` and the dedup/rank/truncate block of
`sendMessageMockPath`) -/

/-- Models JS `a || b` for strings (empty string is falsy). -/
def jsOrStr (a b : String) : String := if a = "" then b else a

/-- The normalized deduplication key:
`(c.title || c.source || '').toLowerCase()`. -/
def chunkKey (c : RagChunk) : String :=
  (jsOrStr (c.title.getD "") (jsOrStr c.source "")).toLower

/-- Models the `filter` with the mutable `seen` set: keep a chunk iff
its key was not seen before, accumulating keys. -/
def dedupByKey : List RagChunk → List String → List RagChunk
  | [], _ => []
  | c :: cs, seen =>
    if chunkKey c ∈ seen then dedupByKey cs seen
    else c :: dedupByKey cs (chunkKey c :: seen)

/-- Models `c.score ?? 0`, the value the sort comparator uses. -/
def score0 (c : RagChunk) : ℚ := (c.score).getD 0

/-- The order the comparator `(a, b) => (b.score ?? 0) - (a.score ?? 0)`
establishes: `a` precedes `b` when its score is at least `b`'s. -/
def scoreDescRel (a b : RagChunk) : Prop := score0 b ≤ score0 a

instance : DecidableRel scoreDescRel :=
  fun a b => inferInstanceAs (Decidable (score0 b ≤ score0 a))

instance : IsTotal RagChunk scoreDescRel :=
  ⟨fun a b => le_total (score0 b) (score0 a)⟩

instance : IsTrans RagChunk scoreDescRel :=
  ⟨fun _ _ _ hab hbc => le_trans hbc hab⟩

/-- Models `.sort((a, b) => (b.score ?? 0) - (a.score ?? 0))`
(a stable sort descending by score, as `Array.prototype.sort` is). -/
def sortByScoreDesc (l : List RagChunk) : List RagChunk :=
  List.insertionSort scoreDescRel l

/-- Exact rounding to two decimals, modelling
`+(x).toFixed(2)` for the small positive scores used here. -/
def fix2 (x : ℚ) : ℚ := ((x * 100 + 1/2).floor : ℤ) / 100

/-- Models the query echo appended to each corpus snippet:
`` `${c.snippet} [q:${q.slice(0, 48)}${q.length > 48 ? '…' : ''}]` ``. -/
def echoSnippet (q : String) (s : String) : String :=
  s ++ " [q:" ++ String.mk (q.data.take 48) ++
    (if 48 < q.data.length then "…" else "") ++ "]"

/-- The fixed illustrative corpus inside `ChatService.mockRag`. -/
def baseCorpus (ids : Nat → String) : List RagChunk :=
  [ { id := ids 0, source := "docs/guide.md", title := some "RAG Overview",
      snippet := "RAG combines retrieval with generation to ground responses.",
      score := some (0.92 : ℚ), url := some "#" },
    { id := ids 1, source := "blog/agents", title := some "Agent Collaboration",
      snippet := "Planner, Researcher, and Writer coordinate to answer complex queries.",
      score := some (0.88 : ℚ), url := some "#" },
    { id := ids 2, source := "kb/context", title := some "Context Windows",
      snippet := "Efficient context packing improves factual grounding.",
      score := some (0.81 : ℚ), url := some "#" },
    { id := ids 3, source := "kb/evaluation", title := some "Answer Quality",
      snippet := "Grounded responses cite evidence and include caveats when needed.",
      score := some (0.77 : ℚ), url := some "#" } ]

/-- Models `ChatService.mockRag`: echo the (trimmed) query into each
snippet and decrement each truthy score by `i * 0.025`, rounded to two
decimals (`c.score ? +(c.score - i * 0.025).toFixed(2) : undefined`). -/
def mockRag (ids : Nat → String) (query : String) : List RagChunk :=
  let q := String.mk (trimWs query.data)
  (List.enum (baseCorpus ids)).map (fun p =>
    { p.2 with
      snippet := echoSnippet q p.2.snippet,
      score := match p.2.score with
               | some s => if s = 0 then none else some (fix2 (s - (p.1 : ℚ) * (0.025 : ℚ)))
               | none => none })

/-- The retrieval step of the local pipeline (`sendMessageMockPath`
lines 332–344): raw mock retrieval, dedup by normalized key, stable
sort descending by score, truncate to the top 5. -/
def retrieveLocal (ids : Nat → String) (query : String) : List RagChunk :=
  (sortByScoreDesc (dedupByKey (mockRag ids query) [])).take 5

/-! ## Context packing (`sendMessageMockPath` lines 375–385) -/

/-- The fixed system guidance string. -/
def systemGuidance : String :=
  "You are a helpful, precise assistant. Cite evidence concisely."

/-- Models the construction of `contextItems`: one `system` item, one
`history` item, then at most 3 `retrieval` items from the front of the
evidence list, each with a clamped token estimate. -/
def packContext (ids : Nat → String) (safeContent : String) (chunks : List RagChunk) :
    List ContextWindowItem :=
  { id := ids 0, kind := .system, text := systemGuidance,
    tokens := some 16, origin := some "system" } ::
  { id := ids 1, kind := .history, text := "User: " ++ safeContent,
    tokens := some (min (24 + safeContent.length / 3) 256), origin := some "user" } ::
  (chunks.take 3).map (fun ch =>
    { id := ch.id, kind := .retrieval,
      text := "[" ++ ch.title.getD ch.source ++ "] " ++ ch.snippet,
      origin := some ch.source,
      tokens := some (min (60 + ch.snippet.length / 4) 200) })

/-! ## Reply synthesis (`generateReplyTailored`) -/

/-- Models `ChatService.generateReplyTailored`. -/
def generateReplyTailored (userText : String) (rag : RagContext) (agentId : String) : String :=
  let ask := String.mk (trimWs userText.data)
  let bullets := String.intercalate "\n"
    ((rag.chunks.take 3).map (fun c => "• " ++ c.title.getD c.source ++ ": " ++ c.snippet))
  let preface :=
    if agentId = "planner" then "Plan of action"
    else if agentId = "researcher" then "Evidence-based findings"
    else "Synthesis"
  let styleHint :=
    if agentId = "planner" then "I will outline steps and responsibilities."
    else if agentId = "researcher" then "I will emphasize sources and confidence."
    else "I will keep the explanation concise and practical."
  let caveat := "If additional precision is required, please provide constraints, expected format, or target audience."
  preface ++ " for your request: \"" ++ ask ++ "\"\n\nKey evidence:\n" ++
    jsOrStr bullets "• (no retrieved evidence available)" ++
    "\n\n" ++ styleHint ++
    "\nAnswer:\nBased on the retrieved context, here is a grounded response tailored to your query. Where appropriate, I cite evidence from the items above and avoid speculation.\n\n" ++
    caveat

/-! ## The local (mock) pipeline path (`sendMessageMockPath`) -/

/-- The actor constants of the mock path. -/
def plannerActor : ProtocolActor := { id := "planner", name := "Planner", icon := some "🧭" }

def researcherActor : ProtocolActor := { id := "researcher", name := "Researcher", icon := some "🔎" }

def writerActor : ProtocolActor := { id := "writer", name := "Writer", icon := some "✍️" }

def backendActor : ProtocolActor := { id := "backend", name := "Backend", icon := some "🛠️" }

/-- The retrieval query of the mock path: `reformulated || safeContent`. -/
def mockQuery (safeContent : String) : String :=
  jsOrStr (rewriteQueryForRetrieval safeContent) safeContent

/-- The final evidence list of the mock path's retrieval step. -/
def mockChunks (ids : Nat → String) (safeContent : String) : List RagChunk :=
  retrieveLocal ids (mockQuery safeContent)

/-- The packed context window of the mock path. -/
def mockContextItems (ids idsPack : Nat → String) (safeContent : String) :
    List ContextWindowItem :=
  packContext idsPack safeContent (mockChunks ids safeContent)

/-- The simulated prompt token count:
`contextItems.reduce((acc, it) => acc + (it.tokens ?? 50), 0)`. -/
def mockPromptTokens (ids idsPack : Nat → String) (safeContent : String) : Nat :=
  ((mockContextItems ids idsPack safeContent).map (fun it => it.tokens.getD 50)).sum

/-- The simulated `ModelCallInfo` of the mock path. -/
def mockLlmInfo (ids idsPack : Nat → String) (latency : Nat) (safeContent : String) :
    ModelCallInfo :=
  { model := "mock-gpt-4o-mini",
    params := some [("temperature", (0.3 : ℚ)), ("max_tokens", 512), ("top_p", (1.0 : ℚ))],
    latencyMs := some (latency : ℚ),
    tokens := some
      { prompt := some ((mockPromptTokens ids idsPack safeContent : Nat) : ℚ),
        completion := some 160,
        total := some (((mockPromptTokens ids idsPack safeContent : Nat) : ℚ) + 160) } }

/-- The result of the mock path: the protocol steps it appends to the
turn's timeline, in order, and the reply message it pushes. -/
structure MockPathResult where
  steps : List ProtocolStep
  reply : Message

/-- Models `ChatService.sendMessageMockPath` (its observable effects:
appended protocol steps and the pushed reply message). -/
def sendMessageMockPath (ids nows : Nat → String) (latency : Nat)
    (selectedAgentId safeContent turnId : String) : MockPathResult :=
  let reformulated := rewriteQueryForRetrieval safeContent
  let planStep : ProtocolStep :=
    { id := ids 0, atISO := nows 0, type := .plan, actor := plannerActor,
      input := some { text := some safeContent,
                      fields := some [("originalLength", safeContent.length)] },
      output := some { text := some ("Plan: retrieve • pack • generate. Reformulated query: \"" ++ reformulated ++ "\"") },
      note := some "Planner refined the query to improve retrieval." }
  let routeStep : ProtocolStep :=
    { id := ids 1, atISO := nows 1, type := .route, actor := plannerActor,
      output := some { text := some "Delegate retrieval to Researcher and writing to Writer." },
      note := some "Planner routed subtasks to agents." }
  let query := mockQuery safeContent
  let chunks := mockChunks (fun n => ids (2 + n)) safeContent
  let retrieveStep : ProtocolStep :=
    { id := ids 6, atISO := nows 2, type := .retrieve, actor := researcherActor,
      input := some { text := some query },
      retrieval := some
        { query := query,
          items := chunks.map (fun c =>
            { id := c.id, source := c.source, title := c.title,
              snippet := c.snippet, score := c.score, url := c.url }) },
      note := some ("Retrieved " ++ toString chunks.length ++ " unique items after deduplication and ranking.") }
  let rag : RagContext := { query := query, chunks := chunks, usedAt := nows 2 }
  let contextItems := mockContextItems (fun n => ids (2 + n)) (fun n => ids (7 + n)) safeContent
  let packStep : ProtocolStep :=
    { id := ids 9, atISO := nows 3, type := .pack, actor := plannerActor,
      contextWindow := some contextItems,
      note := some "Packed system guidance, user input, and top retrievals (3) with token estimates." }
  let llmInfo := mockLlmInfo (fun n => ids (2 + n)) (fun n => ids (7 + n)) latency safeContent
  let replyText := generateReplyTailored safeContent rag selectedAgentId
  let reply : Message :=
    { id := ids 10, role := .agent, content := replyText, timestamp := nows 4,
      agentId := some selectedAgentId, context := some rag, llm := some llmInfo,
      protocolTurnId := some turnId }
  let generateStep : ProtocolStep :=
    { id := ids 11, atISO := nows 5, type := .generate, actor := writerActor,
      input := some { text := some safeContent,
                      fields := some [("packedItems", contextItems.length)] },
      output := some { text := some replyText },
      model := some llmInfo,
      note := some "LLM produced grounded response informed by retrieval." }
  { steps := [planStep, routeStep, retrieveStep, packStep, generateStep], reply := reply }

/-! ## Loosely-typed backend values and numeric normalization
(`toNumberOrUndefined` / `toNumberRecord` in `ChatService`,
`numOrUndef` in `LlmClientService`) -/

/-- The value of a JS number: finite, `NaN`, or an infinity. -/
inductive JsNum where
  | finite (q : ℚ)
  | nan
  | posInf
  | negInf
deriving DecidableEq, Repr

/-- A loosely-typed JS value as it may arrive in a backend payload. -/
inductive JsValue where
  | num (n : JsNum)
  | str (s : String)
  | boolean (b : Bool)
  | nullV
  | undefV
deriving DecidableEq, Repr

/-- Digit run to a natural number. -/
def digitsToNat (l : List Char) : Nat :=
  l.foldl (fun acc c => acc * 10 + (c.toNat - '0'.toNat)) 0

/-- Models the decimal forms accepted by JS `Number(string)`:
`digits`, `digits.digits`, `.digits`, `digits.` (hex, binary and
exponent forms of the full JS grammar are not needed by any caller and
are left out — they would parse to `nan` here). -/
def parseDecimal (l : List Char) : Option ℚ :=
  match splitOnChar '.' l with
  | [a] => if a ≠ [] ∧ a.all Char.isDigit then some ((digitsToNat a : Nat) : ℚ) else none
  | [a, b] =>
    if (a ≠ [] ∨ b ≠ []) ∧ a.all Char.isDigit ∧ b.all Char.isDigit then
      some (((digitsToNat a : Nat) : ℚ) + ((digitsToNat b : Nat) : ℚ) / ((10 : ℚ) ^ b.length))
    else none
  | _ => none

/-- Optional sign in front of a decimal literal. -/
def parseSigned (l : List Char) : Option ℚ :=
  match l with
  | '+' :: rest => parseDecimal rest
  | '-' :: rest => (parseDecimal rest).map (fun q => -q)
  | _ => parseDecimal l

/-- Models JS `Number(string)`: whitespace-trimmed; empty is `0`;
`Infinity` forms; a signed decimal literal; anything else is `NaN`. -/
def parseJsNumber (s : String) : JsNum :=
  let t := trimWs s.data
  if t = [] then .finite 0
  else if t = "Infinity".data ∨ t = "+Infinity".data then .posInf
  else if t = "-Infinity".data then .negInf
  else
    match parseSigned t with
    | some q => .finite q
    | none => .nan

/-- Models the JS `Number(v)` coercion. -/
def jsToNumber : JsValue → JsNum
  | .num n => n
  | .str s => parseJsNumber s
  | .boolean true => .finite 1
  | .boolean false => .finite 0
  | .nullV => .finite 0
  | .undefV => .nan

/-- Models JS `isFinite` on a number value. -/
def jsIsFinite : JsNum → Bool
  | .finite _ => true
  | _ => false

/-- Models JS `isNaN` on a number value. -/
def jsIsNaN : JsNum → Bool
  | .nan => true
  | _ => false

/-- The rational carried by a finite JS number (only ever read behind
the `isFinite` guard). -/
def finitePart : JsNum → ℚ
  | .finite q => q
  | _ => 0

/-- Models `ChatService.toNumberOrUndefined` (and the identical
`LlmClientService.numOrUndef`):
`const n = Number(v); return isFinite(n) && !isNaN(n) ? n : undefined`. -/
def toNumberOrUndefined (v : JsValue) : Option ℚ :=
  let n := jsToNumber v
  if jsIsFinite n && !jsIsNaN n then some (finitePart n) else none

/-- Models `ChatService.toNumberRecord`: keep exactly the keys whose
values coerce to finite numbers; an empty result becomes `undefined`. -/
def toNumberRecord (obj : Option (List (String × JsValue))) : Option (List (String × ℚ)) :=
  match obj with
  | none => none
  | some kvs =>
    let out := kvs.filterMap (fun kv => (toNumberOrUndefined kv.2).map (fun q => (kv.1, q)))
    if out.isEmpty then none else some out

/-! ## The remote backend response (`LlmClientService` shapes) and the
remote branch of `sendMessage` -/

/-- The loosely-typed `tokens` record of a backend payload
(`(res.llm.tokens as any)?.prompt` and friends). -/
structure RawTokens where
  prompt : JsValue := .undefV
  completion : JsValue := .undefV
  total : JsValue := .undefV
deriving DecidableEq, Repr

/-- The loosely-typed `llm` metadata of a backend payload. -/
structure RawLlmInfo where
  model : String
  params : Option (List (String × JsValue)) := none
  tokens : Option RawTokens := none
  latencyMs : JsValue := .undefV
deriving DecidableEq, Repr

/-- A backend-supplied protocol step, every field possibly missing
(`applyBackendProtocol` fills the gaps). -/
structure BackendStep where
  id : Option String := none
  atISO : Option String := none
  type : Option StepType := none
  actor : Option ProtocolActor := none
  input : Option ProtocolIO := none
  output : Option ProtocolIO := none
  retrieval : Option RetrievalBatch := none
  contextWindow : Option (List ContextWindowItem) := none
  model : Option ModelCallInfo := none
  note : Option String := none
deriving DecidableEq, Repr

/-- Models `LlmChatCompletionResponse` from `llm-client.service.ts`. -/
structure LlmChatCompletionResponse where
  content : String
  context : Option RagContext := none
  llm : Option RawLlmInfo := none
  protocol : List BackendStep := []
deriving DecidableEq, Repr

/-- Field access through the optional `tokens` record: optional
chaining yields `undefined` when the record is missing. -/
def tokField (t : Option RawTokens) (f : RawTokens → JsValue) : JsValue :=
  match t with
  | some tk => f tk
  | none => .undefV

/-- Models the `normLlm` normalization in `sendMessage` (lines
207–218): coerce the loosely-typed numeric fields, dropping the
non-finite ones. -/
def normalizeLlm (raw : Option RawLlmInfo) : Option ModelCallInfo :=
  match raw with
  | none => none
  | some r => some
    { model := r.model,
      params := toNumberRecord r.params,
      tokens := some
        { prompt := toNumberOrUndefined (tokField r.tokens (·.prompt)),
          completion := toNumberOrUndefined (tokField r.tokens (·.completion)),
          total := toNumberOrUndefined (tokField r.tokens (·.total)) },
      latencyMs := toNumberOrUndefined r.latencyMs }

/-- Models one step conversion of `applyBackendProtocol`: fill missing
identifiers/timestamps with fresh ones, default the kind to `plan` and
the actor to the backend actor. -/
def normalizeBackendStep (ids nows : Nat → String) (k : Nat) (s : BackendStep) : ProtocolStep :=
  { id := jsOrStr (s.id.getD "") (ids k),
    atISO := jsOrStr (s.atISO.getD "") (nows k),
    type := s.type.getD .plan,
    actor := s.actor.getD backendActor,
    input := s.input,
    output := s.output,
    retrieval := s.retrieval,
    contextWindow := s.contextWindow,
    model := s.model,
    note := s.note }

/-- The behavior of the single remote call when attempted. -/
inductive RemoteBehavior where
  | succeeds (res : LlmChatCompletionResponse)
  | fails (errMsg : String)

/-- The observable outcome of one `ChatService.sendMessage` call. -/
structure SendResult where
  turnId : String
  userMsg : Message
  steps : List ProtocolStep
  messages : List Message
  store : ProtocolStore

/-- Models `ChatService.sendMessage`: sanitize, create the turn, push
the user message, then either run the mock path (unconfigured), or
attempt the remote backend and on failure record an `error` step and
fall back to the mock path.  `steps` are the protocol steps appended
to the turn's timeline in order, `messages` the messages pushed to the
conversation in order, `store` the resulting protocol store. -/
def sendMessage (ids nows : Nat → String) (latency : Nat) (store0 : ProtocolStore)
    (configured : Bool) (remote : RemoteBehavior) (activeAgentId : String)
    (content : String) : SendResult :=
  let selectedAgentId := jsOrStr activeAgentId "writer"
  let safeContent := sanitizeContent content
  let turnId := ids 0
  let store1 := addProtocol store0 turnId
  let userMsg : Message :=
    { id := ids 1, role := .user, content := safeContent, timestamp := nows 0,
      protocolTurnId := some turnId }
  if !configured then
    let mock := sendMessageMockPath (fun n => ids (2 + n)) (fun n => nows (1 + n))
      latency selectedAgentId safeContent turnId
    { turnId := turnId, userMsg := userMsg, steps := mock.steps,
      messages := [userMsg, mock.reply],
      store := appendSteps store1 turnId mock.steps }
  else
    let remotePlan : ProtocolStep :=
      { id := ids 2, atISO := nows 1, type := .plan, actor := plannerActor,
        input := some { text := some safeContent },
        output := some { text := some "Send to LLM backend with optional RAG." },
        note := some "Frontend delegated retrieval and generation to backend." }
    match remote with
    | .succeeds res =>
      let backSteps := (List.enum res.protocol).map (fun p =>
        normalizeBackendStep (fun n => ids (3 + n)) (fun n => nows (2 + n)) p.1 p.2)
      let reply : Message :=
        { id := ids 20, role := .agent, content := jsOrStr res.content "(no content)",
          timestamp := nows 9, agentId := some selectedAgentId,
          context := res.context, llm := normalizeLlm res.llm,
          protocolTurnId := some turnId }
      let steps := remotePlan :: backSteps
      { turnId := turnId, userMsg := userMsg, steps := steps,
        messages := [userMsg, reply],
        store := appendSteps store1 turnId steps }
    | .fails errMsg =>
      let errStep : ProtocolStep :=
        { id := ids 3, atISO := nows 2, type := .error, actor := backendActor,
          note := some ("Backend error: " ++ errMsg) }
      let mock := sendMessageMockPath (fun n => ids (4 + n)) (fun n => nows (3 + n))
        latency selectedAgentId safeContent turnId
      let steps := remotePlan :: errStep :: mock.steps
      { turnId := turnId, userMsg := userMsg, steps := steps,
        messages := [userMsg, mock.reply],
        store := appendSteps store1 turnId steps }

/-! # Theorems -/

/-! ## ProtocolTimelineStore lemmas -/

lemma addProtocol_steps (store : ProtocolStore) (t : String) :
    ((addProtocol store t) t).map (·.steps) = some (((store t).map (·.steps)).getD []) := by
  unfold addProtocol
  cases h : store t with
  | none => simp [h]
  | some p => simp [h]

lemma addProtocol_isSome (store : ProtocolStore) (t : String) :
    ((addProtocol store t) t).isSome := by
  unfold addProtocol
  cases h : store t with
  | none => simp [h]
  | some p => simp [h]

lemma addProtocol_of_isSome (store : ProtocolStore) (t : String) (hs : (store t).isSome) :
    addProtocol store t = store := by
  unfold addProtocol
  rw [if_pos hs]

lemma addProtocol_other (store : ProtocolStore) (t u : String) (h : u ≠ t) :
    (addProtocol store t) u = store u := by
  unfold addProtocol
  cases hs : store t with
  | none => simp [hs, h]
  | some p => simp [hs]

lemma appendStep_self (store : ProtocolStore) (t : String) (s : ProtocolStep) :
    ((appendStep store t s) t).map (·.steps) =
      some ((((store t).map (·.steps)).getD []) ++ [s]) := by
  unfold appendStep
  cases h : store t with
  | none => simp [h, addProtocol]
  | some p => simp [h]

lemma appendStep_isSome (store : ProtocolStore) (t : String) (s : ProtocolStep) :
    ((appendStep store t s) t).isSome := by
  unfold appendStep
  simp

lemma appendStep_other (store : ProtocolStore) (t u : String) (s : ProtocolStep) (h : u ≠ t) :
    (appendStep store t s) u = store u := by
  unfold appendStep
  cases hs : store t with
  | none => simp [hs, h, addProtocol_other store t u h]
  | some p => simp [hs, h]

lemma appendSteps_self (t : String) (l : List ProtocolStep) :
    ∀ store : ProtocolStore, (store t).isSome →
      ((appendSteps store t l) t).map (·.steps) =
        some ((((store t).map (·.steps)).getD []) ++ l) := by
  induction l with
  | nil =>
    intro store hs
    obtain ⟨p, hp⟩ := Option.isSome_iff_exists.mp hs
    simp [appendSteps, hp]
  | cons s rest ih =>
    intro store _
    have h1 := ih (appendStep store t s) (appendStep_isSome store t s)
    rw [appendStep_self store t s] at h1
    simp only [Option.getD_some] at h1
    show ((appendSteps (appendStep store t s) t rest) t).map (·.steps) = _
    rw [h1]
    simp

lemma appendSteps_other (t u : String) (l : List ProtocolStep) (h : u ≠ t) :
    ∀ store : ProtocolStore, (appendSteps store t l) u = store u := by
  induction l with
  | nil => intro store; rfl
  | cons s rest ih =>
    intro store
    show (appendSteps (appendStep store t s) t rest) u = store u
    rw [ih (appendStep store t s), appendStep_other store t u s h]

/-! ## C6 / C7: the store's contract -/

/-- C6: `append(turnId, step)` creates the timeline for `turnId` if it
is missing and extends exactly that turn's step sequence by the one
step at the end — every previously appended step is preserved in its
original position (the old sequence is a prefix of the new one) — and
the timelines of all other turn ids are unchanged. -/
theorem c6_appendStep_appends_preserving (store : ProtocolStore) (turnId : String)
    (step : ProtocolStep) :
    ((appendStep store turnId step) turnId).map (·.steps) =
      some ((((store turnId).map (·.steps)).getD []) ++ [step]) ∧
    ∀ t, t ≠ turnId → (appendStep store turnId step) t = store t :=
  ⟨appendStep_self store turnId step,
   fun t ht => appendStep_other store turnId t step ht⟩

/-- A concrete store fixture: one existing turn `"turn-a"` with one
recorded `plan` step. -/
def fixtureStep : ProtocolStep :=
  { id := "s-0", atISO := "2024-01-01T00:00:00.000Z", type := .plan,
    actor := { id := "planner", name := "Planner" } }

def fixtureStep2 : ProtocolStep :=
  { id := "s-1", atISO := "2024-01-01T00:00:01.000Z", type := .route,
    actor := { id := "planner", name := "Planner" } }

def fixtureStore : ProtocolStore :=
  fun t => if t = "turn-a" then some { turnId := "turn-a", steps := [fixtureStep] } else none

/-- Witness for C6 at a concrete store, turn id and step. -/
theorem c6_appendStep_appends_preserving_witness :
    ((appendStep fixtureStore "turn-a" fixtureStep2) "turn-a").map (·.steps) =
      some [fixtureStep, fixtureStep2] ∧
    (appendStep fixtureStore "turn-a" fixtureStep2) "turn-b" = none := by
  have h := c6_appendStep_appends_preserving fixtureStore "turn-a" fixtureStep2
  refine ⟨?_, ?_⟩
  · rw [h.1]; rfl
  · rw [h.2 "turn-b" (by decide)]; rfl

/-- C7: `ensure(turnId)` (the service's `addProtocol`) is idempotent —
when a timeline already exists the store is unchanged; calling it
twice from any state equals calling it once, and from an absent state
it yields exactly one empty timeline for that id; other turn ids are
untouched. -/
theorem c7_addProtocol_idempotent (store : ProtocolStore) (t : String) :
    addProtocol (addProtocol store t) t = addProtocol store t ∧
    ((store t).isSome → addProtocol store t = store) ∧
    (store t = none →
      (addProtocol (addProtocol store t) t) t = some { turnId := t, steps := [] }) ∧
    ∀ u, u ≠ t → (addProtocol store t) u = store u := by
  refine ⟨addProtocol_of_isSome _ _ (addProtocol_isSome store t),
    fun hs => addProtocol_of_isSome store t hs, ?_,
    fun u hu => addProtocol_other store t u hu⟩
  intro hn
  rw [addProtocol_of_isSome _ _ (addProtocol_isSome store t)]
  unfold addProtocol
  simp [hn]

/-- Witness for C7 at a concrete store and turn ids. -/
theorem c7_addProtocol_idempotent_witness :
    addProtocol (addProtocol fixtureStore "turn-b") "turn-b" = addProtocol fixtureStore "turn-b" ∧
    addProtocol fixtureStore "turn-a" = fixtureStore ∧
    (addProtocol (addProtocol fixtureStore "turn-b") "turn-b") "turn-b" =
      some { turnId := "turn-b", steps := [] } ∧
    (addProtocol fixtureStore "turn-b") "turn-a" = fixtureStore "turn-a" := by
  refine ⟨(c7_addProtocol_idempotent fixtureStore "turn-b").1,
    (c7_addProtocol_idempotent fixtureStore "turn-a").2.1 (by decide),
    (c7_addProtocol_idempotent fixtureStore "turn-b").2.2.1 (by decide),
    (c7_addProtocol_idempotent fixtureStore "turn-b").2.2.2 "turn-a" (by decide)⟩

/-! ## C1: retrieval returns deduplicated, score-sorted, truncated evidence -/

lemma dedupByKey_pairwise (l : List RagChunk) :
    ∀ seen : List String,
      (dedupByKey l seen).Pairwise (fun a b => chunkKey a ≠ chunkKey b) ∧
      ∀ c ∈ dedupByKey l seen, chunkKey c ∉ seen := by
  induction l with
  | nil => intro seen; simp [dedupByKey]
  | cons c cs ih =>
    intro seen
    by_cases hk : chunkKey c ∈ seen
    · simp only [dedupByKey, if_pos hk]
      exact ih seen
    · simp only [dedupByKey, if_neg hk]
      obtain ⟨hp, hseen⟩ := ih (chunkKey c :: seen)
      constructor
      · refine List.Pairwise.cons ?_ hp
        intro b hb he
        exact hseen b hb (by simp [← he])
      · intro d hd
        rcases List.mem_cons.mp hd with hd | hd
        · rw [hd]; exact hk
        · intro hmem
          exact hseen d hd (List.mem_cons_of_mem _ hmem)

/-- C1: for every query (and identifier stream), the retrieval step of
the local pipeline produces a list in which no two chunks share the
lower-cased title-or-source key, which is sorted in descending order
of `score ?? 0`, and which has at most 5 elements. -/
theorem c1_retrieveLocal_dedup_sorted_top5 (ids : Nat → String) (query : String) :
    (retrieveLocal ids query).Pairwise (fun a b => chunkKey a ≠ chunkKey b) ∧
    (retrieveLocal ids query).Pairwise (fun a b => score0 b ≤ score0 a) ∧
    (retrieveLocal ids query).length ≤ 5 := by
  refine ⟨?_, ?_, ?_⟩
  · have hd := (dedupByKey_pairwise (mockRag ids query) []).1
    have hperm := List.perm_insertionSort scoreDescRel (dedupByKey (mockRag ids query) [])
    have hp : (sortByScoreDesc (dedupByKey (mockRag ids query) [])).Pairwise
        (fun a b => chunkKey a ≠ chunkKey b) :=
      (hperm.pairwise_iff (fun hxy h => hxy h.symm)).mpr hd
    exact List.Pairwise.sublist (List.take_sublist _ _) hp
  · have hs := List.sorted_insertionSort scoreDescRel (dedupByKey (mockRag ids query) [])
    exact List.Pairwise.sublist (List.take_sublist _ _) hs
  · unfold retrieveLocal
    rw [List.length_take]
    exact min_le_left _ _

/-! ## C4: the packed context window's shape -/

lemma countP_kinds_cons_replicate (n : Nat) :
    (CtxKind.system :: CtxKind.history :: List.replicate n CtxKind.retrieval).countP
      (fun k => k == CtxKind.system) = 1 ∧
    (CtxKind.system :: CtxKind.history :: List.replicate n CtxKind.retrieval).countP
      (fun k => k == CtxKind.history) = 1 := by
  constructor <;> simp [List.countP_cons, List.countP_replicate]

/-- C4: for every identifier stream, user text and evidence list, the
packed context window's kinds are exactly `system`, then `history`,
then `min 3 |evidence|` retrieval kinds; hence its length is at most
`2 + min 3 |evidence|`, exactly one `system` and one `history` item
are emitted, and the retrieval items are built from the front
(`take 3`) of the evidence list. -/
theorem c4_packContext_shape (ids : Nat → String) (safeContent : String)
    (chunks : List RagChunk) :
    (packContext ids safeContent chunks).map (·.kind) =
      CtxKind.system :: CtxKind.history ::
        List.replicate (min 3 chunks.length) CtxKind.retrieval ∧
    (packContext ids safeContent chunks).length ≤ 2 + min 3 chunks.length ∧
    ((packContext ids safeContent chunks).map (·.kind)).countP
      (fun k => k == CtxKind.system) = 1 ∧
    ((packContext ids safeContent chunks).map (·.kind)).countP
      (fun k => k == CtxKind.history) = 1 ∧
    (packContext ids safeContent chunks).drop 2 =
      (chunks.take 3).map (fun ch =>
        { id := ch.id, kind := .retrieval,
          text := "[" ++ ch.title.getD ch.source ++ "] " ++ ch.snippet,
          origin := some ch.source,
          tokens := some (min (60 + ch.snippet.length / 4) 200) }) := by
  have hmap : (packContext ids safeContent chunks).map (·.kind) =
      CtxKind.system :: CtxKind.history ::
        List.replicate (min 3 chunks.length) CtxKind.retrieval := by
    simp only [packContext, List.map_cons, List.map_map]
    congr 1
    congr 1
    rw [show ((fun x => x.kind) ∘ fun ch : RagChunk =>
        ({ id := ch.id, kind := .retrieval,
           text := "[" ++ ch.title.getD ch.source ++ "] " ++ ch.snippet,
           origin := some ch.source,
           tokens := some (min (60 + ch.snippet.length / 4) 200) } : ContextWindowItem)) =
        Function.const RagChunk CtxKind.retrieval from rfl]
    rw [List.map_const, List.length_take]
  refine ⟨hmap, ?_, ?_, ?_, rfl⟩
  · have : (packContext ids safeContent chunks).length =
        ((packContext ids safeContent chunks).map (·.kind)).length := by
      rw [List.length_map]
    rw [this, hmap]
    simp only [List.length_cons, List.length_replicate]
    omega
  · rw [hmap]; exact (countP_kinds_cons_replicate _).1
  · rw [hmap]; exact (countP_kinds_cons_replicate _).2

/-! ## C10: simulated model-call metadata of the local path -/

lemma map_tokens_retrieval_items (l : List RagChunk) :
    (l.map (fun ch =>
      ({ id := ch.id, kind := .retrieval,
         text := "[" ++ ch.title.getD ch.source ++ "] " ++ ch.snippet,
         origin := some ch.source,
         tokens := some (min (60 + ch.snippet.length / 4) 200) } : ContextWindowItem))).map
      (·.tokens) = l.map (fun ch => some (min (60 + ch.snippet.length / 4) 200)) := by
  induction l with
  | nil => rfl
  | cons c t ih => simp only [List.map_cons, ih]

/-- C10: in the local path the `ModelCallInfo` recorded both on the
reply message and on the `generate` step (and only there) has a prompt
token count equal to the sum over the packed items of `tokens ?? 50`,
the constant completion count 160, and total = prompt + 160; the
per-item estimates are clamped: 16 for the `system` item, at most 256
for the `history` item, at most 200 for each `retrieval` item. -/
theorem c10_mock_model_call_metadata (ids nows : Nat → String) (latency : Nat)
    (agentId safe turnId : String) :
    (sendMessageMockPath ids nows latency agentId safe turnId).reply.llm =
      some (mockLlmInfo (fun n => ids (2 + n)) (fun n => ids (7 + n)) latency safe) ∧
    (sendMessageMockPath ids nows latency agentId safe turnId).steps.map (·.model) =
      [none, none, none, none,
       some (mockLlmInfo (fun n => ids (2 + n)) (fun n => ids (7 + n)) latency safe)] ∧
    (mockLlmInfo (fun n => ids (2 + n)) (fun n => ids (7 + n)) latency safe).tokens = some
      { prompt := some ((((mockContextItems (fun n => ids (2 + n)) (fun n => ids (7 + n)) safe).map
          (fun it => it.tokens.getD 50)).sum : Nat) : ℚ),
        completion := some 160,
        total := some (((((mockContextItems (fun n => ids (2 + n)) (fun n => ids (7 + n)) safe).map
          (fun it => it.tokens.getD 50)).sum : Nat) : ℚ) + 160) } ∧
    (mockContextItems (fun n => ids (2 + n)) (fun n => ids (7 + n)) safe).map (·.tokens) =
      some 16 :: some (min (24 + safe.length / 3) 256) ::
        ((mockChunks (fun n => ids (2 + n)) safe).take 3).map
          (fun ch => some (min (60 + ch.snippet.length / 4) 200)) ∧
    min (24 + safe.length / 3) 256 ≤ 256 ∧
    ((mockContextItems (fun n => ids (2 + n)) (fun n => ids (7 + n)) safe).drop 2).all
      (fun it => decide (it.tokens.getD 0 ≤ 200)) = true := by
  refine ⟨rfl, rfl, rfl, ?_, min_le_right _ _, ?_⟩
  · unfold mockContextItems packContext
    rw [List.map_cons, List.map_cons, map_tokens_retrieval_items]
  · rw [show (mockContextItems (fun n => ids (2 + n)) (fun n => ids (7 + n)) safe).drop 2 =
        ((mockChunks (fun n => ids (2 + n)) safe).take 3).map (fun ch =>
          ({ id := ch.id, kind := .retrieval,
             text := "[" ++ ch.title.getD ch.source ++ "] " ++ ch.snippet,
             origin := some ch.source,
             tokens := some (min (60 + ch.snippet.length / 4) 200) } : ContextWindowItem))
        from rfl]
    apply List.all_eq_true.mpr
    intro it hit
    rcases List.mem_map.mp hit with ⟨ch, _, rfl⟩
    simp only [Option.getD_some, decide_eq_true_eq]
    exact min_le_right _ _

/-! ## C2 / C3: the step-kind sequences of a turn

The code's fallback calls the full mock path, which records its own
`plan` step again; so after a remote failure the timeline reads
`plan, error, plan, route, retrieve, pack, generate` — the `error`
step is immediately followed by the local `plan` step, not by `route`. -/

/-- C2 (amended): the kinds recorded for a turn are exactly
`[plan, route, retrieve, pack, generate]` on the unconfigured local
path; `plan` followed by the backend-supplied kinds (each defaulted to
`plan` when missing) on the remote-success path; and
`[plan, error, plan, route, retrieve, pack, generate]` on the
remote-failure path — so an `error` step recorded by the frontend
appears iff the remote path was attempted and failed, and it is
immediately followed by the fallback's own `plan` step, with `route`
coming only after that. -/
theorem c2_step_kind_sequences (ids nows : Nat → String) (latency : Nat)
    (store0 : ProtocolStore) (agentId content : String) :
    (∀ remote, ((sendMessage ids nows latency store0 false remote agentId content).steps.map
        (·.type)) = [.plan, .route, .retrieve, .pack, .generate]) ∧
    (∀ res, ((sendMessage ids nows latency store0 true (.succeeds res) agentId content).steps.map
        (·.type)) = .plan :: res.protocol.map (fun s => s.type.getD .plan)) ∧
    (∀ errMsg, ((sendMessage ids nows latency store0 true (.fails errMsg) agentId content).steps.map
        (·.type)) = [.plan, .error, .plan, .route, .retrieve, .pack, .generate]) := by
  refine ⟨fun remote => rfl, fun res => ?_, fun errMsg => rfl⟩
  have h : (sendMessage ids nows latency store0 true (.succeeds res) agentId content).steps =
      ({ id := ids 2, atISO := nows 1, type := .plan, actor := plannerActor,
         input := some { text := some (sanitizeContent content) },
         output := some { text := some "Send to LLM backend with optional RAG." },
         note := some "Frontend delegated retrieval and generation to backend." } : ProtocolStep) ::
      (List.enum res.protocol).map (fun p =>
        normalizeBackendStep (fun n => ids (3 + n)) (fun n => nows (2 + n)) p.1 p.2) := rfl
  rw [h, List.map_cons, List.map_map]
  congr 1
  rw [show ((fun x : ProtocolStep => x.type) ∘ fun p : Nat × BackendStep =>
      normalizeBackendStep (fun n => ids (3 + n)) (fun n => nows (2 + n)) p.1 p.2) =
      ((fun s : BackendStep => s.type.getD .plan) ∘ Prod.snd) from rfl]
  rw [← List.map_map, List.enum_map_snd]

/-- Concrete nondeterminism fixtures for counterexamples/witnesses. -/
def cexIds : Nat → String := fun n => "id-" ++ toString n

def cexNows : Nat → String := fun n => "t-" ++ toString n

def cexStore : ProtocolStore := fun _ => none

/-- Counterexample to C2 as stated: on a concrete failed remote
attempt the recorded kinds are
`[plan, error, plan, route, retrieve, pack, generate]`; an `error`
step is present, yet no `error` is immediately followed by `route`
(the pair `(error, route)` occurs nowhere among adjacent kinds),
because the fallback's second `plan` step sits in between. -/
theorem c2_counterexample :
    ((sendMessage cexIds cexNows 900 cexStore true (.fails "Timeout has occurred") "writer"
        "hi").steps.map (·.type)) =
      [.plan, .error, .plan, .route, .retrieve, .pack, .generate] ∧
    StepType.error ∈ ((sendMessage cexIds cexNows 900 cexStore true
        (.fails "Timeout has occurred") "writer" "hi").steps.map (·.type)) ∧
    (StepType.error, StepType.route) ∉
      (((sendMessage cexIds cexNows 900 cexStore true (.fails "Timeout has occurred") "writer"
          "hi").steps.map (·.type)).zip
        ((sendMessage cexIds cexNows 900 cexStore true (.fails "Timeout has occurred") "writer"
          "hi").steps.map (·.type)).tail) := by
  refine ⟨rfl, ?_, ?_⟩
  · rw [show ((sendMessage cexIds cexNows 900 cexStore true (.fails "Timeout has occurred")
        "writer" "hi").steps.map (·.type)) =
        [.plan, .error, .plan, .route, .retrieve, .pack, .generate] from rfl]
    decide
  · rw [show ((sendMessage cexIds cexNows 900 cexStore true (.fails "Timeout has occurred")
        "writer" "hi").steps.map (·.type)) =
        [.plan, .error, .plan, .route, .retrieve, .pack, .generate] from rfl]
    decide

/-- C3: when the remote backend is configured and fails, exactly one
`error` step is recorded, its actor id is `"backend"`, the full local
pipeline runs after it (kinds and actors in order), an agent reply is
appended to the conversation after the user message, and the
resulting protocol store holds all recorded steps of the turn — the
operation always completes with a reply, never in a failed state. -/
theorem c3_remote_failure_recovers (ids nows : Nat → String) (latency : Nat)
    (store0 : ProtocolStore) (agentId content errMsg : String) :
    ((sendMessage ids nows latency store0 true (.fails errMsg) agentId content).steps.map
      (fun s => (s.type, s.actor.id))) =
      [(.plan, "planner"), (.error, "backend"), (.plan, "planner"), (.route, "planner"),
       (.retrieve, "researcher"), (.pack, "planner"), (.generate, "writer")] ∧
    ((sendMessage ids nows latency store0 true (.fails errMsg) agentId content).steps.countP
      (fun s => s.type == .error)) = 1 ∧
    ((sendMessage ids nows latency store0 true (.fails errMsg) agentId content).messages.map
      (·.role)) = [.user, .agent] ∧
    ((sendMessage ids nows latency store0 true (.fails errMsg) agentId content).messages.getLast?).map
      (·.protocolTurnId) = some (some (ids 0)) ∧
    (((sendMessage ids nows latency store0 true (.fails errMsg) agentId content).store) (ids 0)).map
      (·.steps) =
      some ((((store0 (ids 0)).map (·.steps)).getD []) ++
        (sendMessage ids nows latency store0 true (.fails errMsg) agentId content).steps) := by
  refine ⟨rfl, rfl, rfl, rfl, ?_⟩
  have h1 := appendSteps_self (ids 0)
    ((sendMessage ids nows latency store0 true (.fails errMsg) agentId content).steps)
    (addProtocol store0 (ids 0)) (addProtocol_isSome store0 (ids 0))
  rw [addProtocol_steps] at h1
  simp only [Option.getD_some] at h1
  exact h1

/-! ## C8: coercion-and-drop normalization of backend numerics -/

/-- C8: `toNumberOrUndefined` keeps a value iff its JS `Number`
coercion is finite (never defaulting to zero), and a key/value pair
appears in the `toNumberRecord` output exactly when the original
record holds a value under that key whose coercion is finite — so no
malformed field survives normalization into the stored message. -/
theorem c8_coercion_and_drop :
    (∀ v q, toNumberOrUndefined v = some q ↔ jsToNumber v = .finite q) ∧
    (∀ v, toNumberOrUndefined v = none ↔ jsIsFinite (jsToNumber v) = false) ∧
    (∀ kvs k q, (k, q) ∈ (toNumberRecord (some kvs)).getD [] ↔
      ∃ v, (k, v) ∈ kvs ∧ jsToNumber v = .finite q) := by
  have hsome : ∀ v q, toNumberOrUndefined v = some q ↔ jsToNumber v = .finite q := by
    intro v q
    unfold toNumberOrUndefined
    cases hn : jsToNumber v <;> simp [jsIsFinite, jsIsNaN, finitePart]
  have hgetD : ∀ kvs : List (String × JsValue),
      (toNumberRecord (some kvs)).getD [] =
        kvs.filterMap (fun kv => (toNumberOrUndefined kv.2).map (fun q => (kv.1, q))) := by
    intro kvs
    simp only [toNumberRecord]
    split
    · next hemp =>
      rw [List.isEmpty_iff.mp hemp]
      rfl
    · rfl
  refine ⟨hsome, ?_, ?_⟩
  · intro v
    unfold toNumberOrUndefined
    cases hn : jsToNumber v <;> simp [jsIsFinite, jsIsNaN, finitePart]
  · intro kvs k q
    rw [hgetD kvs, List.mem_filterMap]
    constructor
    · rintro ⟨⟨k2, v⟩, hmem, hf⟩
      simp only [Option.map_eq_some'] at hf
      obtain ⟨q2, hq2, heq⟩ := hf
      rw [Prod.ext_iff] at heq
      obtain ⟨hk, hq⟩ := heq
      simp only at hk hq
      subst hk
      subst hq
      exact ⟨v, hmem, (hsome v q2).mp hq2⟩
    · rintro ⟨v, hmem, hfin⟩
      exact ⟨(k, v), hmem, by simp [(hsome v q).mpr hfin]⟩

/-! ## C5: sanitization — helper lemmas about whitespace collapsing -/

lemma collapseWs_cons_not {c : Char} (hc : isJsWs c = false) (cs : List Char) :
    collapseWs (c :: cs) = c :: collapseWs cs := by
  cases cs with
  | nil => simp [collapseWs, hc]
  | cons d ds => simp [collapseWs, hc]

lemma collapseWs_cons_ws :
    ∀ (cs : List Char) (c : Char), isJsWs c = true →
      collapseWs (c :: cs) = ' ' :: collapseWs (cs.dropWhile isJsWs) := by
  intro cs
  induction cs with
  | nil => intro c hc; simp [collapseWs, hc]
  | cons d ds ih =>
    intro c hc
    by_cases hd : isJsWs d
    · rw [show collapseWs (c :: d :: ds) = collapseWs (d :: ds) by simp [collapseWs, hc, hd]]
      rw [ih d hd, List.dropWhile_cons, if_pos hd]
    · rw [show collapseWs (c :: d :: ds) = ' ' :: collapseWs (d :: ds) by
        simp [collapseWs, hc, hd]]
      rw [List.dropWhile_cons, if_neg (by simp [hd])]

lemma dropWhile_of_all_false {p : Char → Bool} {l : List Char}
    (h : ∀ x ∈ l, p x = false) : l.dropWhile p = l := by
  cases l with
  | nil => rfl
  | cons c cs => rw [List.dropWhile_cons, if_neg (by simp [h c (List.mem_cons_self c cs)])]

lemma collapseWs_all_ws (l : List Char) (h : ∀ x ∈ l, isJsWs x = true) :
    collapseWs l = if l = [] then [] else [' '] := by
  cases l with
  | nil => rfl
  | cons c cs =>
    rw [collapseWs_cons_ws cs c (h c (List.mem_cons_self c cs))]
    have hnil : cs.dropWhile isJsWs = [] :=
      List.dropWhile_eq_nil_iff.mpr (fun x hx => h x (List.mem_cons_of_mem c hx))
    rw [hnil]
    simp [collapseWs]

lemma collapseWs_append_ws (w : List Char) (c : Char) (cs : List Char)
    (hw : ∀ x ∈ w, isJsWs x = true) (hc : isJsWs c = false) :
    collapseWs (w ++ c :: cs) = (if w = [] then [] else [' ']) ++ collapseWs (c :: cs) := by
  cases w with
  | nil => simp
  | cons x w2 =>
    have hx : isJsWs x = true := hw x (List.mem_cons_self x w2)
    rw [List.cons_append, collapseWs_cons_ws _ x hx]
    have hdw : (w2 ++ c :: cs).dropWhile isJsWs = c :: cs := by
      rw [List.dropWhile_append]
      have h2 : w2.dropWhile isJsWs = [] :=
        List.dropWhile_eq_nil_iff.mpr (fun y hy => hw y (List.mem_cons_of_mem x hy))
      rw [h2]
      simp only [List.isEmpty_nil, if_pos]
      rw [List.dropWhile_cons, if_neg (by simp [hc])]
    rw [hdw]
    simp

lemma collapseWs_append_word (a r : List Char) (ha : ∀ x ∈ a, isJsWs x = false) :
    collapseWs (a ++ r) = a ++ collapseWs r := by
  induction a with
  | nil => rfl
  | cons x a2 ih =>
    rw [List.cons_append, collapseWs_cons_not (ha x (List.mem_cons_self x a2)),
      ih (fun y hy => ha y (List.mem_cons_of_mem x hy))]
    rfl

lemma rtrimWs_append_word (a z : List Char) (ha : ∀ x ∈ a, isJsWs x = false) :
    rtrimWs (a ++ z) = a ++ rtrimWs z := by
  unfold rtrimWs
  rw [List.reverse_append, List.dropWhile_append]
  by_cases hz : (z.reverse.dropWhile isJsWs).isEmpty
  · rw [if_pos hz]
    rw [dropWhile_of_all_false (fun x hx => ha x (List.mem_reverse.mp hx))]
    rw [List.isEmpty_iff.mp hz]
    simp
  · rw [if_neg hz, List.reverse_append]
    simp

lemma rtrimWs_space_cons (z : List Char) (hz : z.reverse.dropWhile isJsWs ≠ []) :
    rtrimWs (' ' :: z) = ' ' :: rtrimWs z := by
  unfold rtrimWs
  rw [show (' ' :: z).reverse = z.reverse ++ [' '] from by simp]
  rw [List.dropWhile_append]
  rw [if_neg (by simpa using hz)]
  simp

lemma head_dropWhile_false_p (p : Char → Bool) (l : List Char) (c : Char) (cs : List Char)
    (h : l.dropWhile p = c :: cs) : p c = false := by
  have w : l.dropWhile p ≠ [] := by simp [h]
  have hh := List.head_dropWhile_not p l w
  simpa [h] using hh

lemma wordsOf_eq_nil (l : List Char) (h : l.dropWhile isJsWs = []) : wordsOf l = [] := by
  conv_lhs => unfold wordsOf
  split
  · rfl
  · next c cs heq => rw [h] at heq; cases heq

lemma wordsOf_eq_cons (l : List Char) (c : Char) (cs : List Char)
    (h : l.dropWhile isJsWs = c :: cs) :
    wordsOf l = ((c :: cs).takeWhile (fun x => !isJsWs x)) ::
      wordsOf ((c :: cs).dropWhile (fun x => !isJsWs x)) := by
  conv_lhs => unfold wordsOf
  split
  · next heq => rw [h] at heq; cases heq
  · next c2 cs2 heq =>
    rw [h] at heq
    cases heq
    rfl

lemma wordsOf_dropWhile (l : List Char) : wordsOf l = wordsOf (l.dropWhile isJsWs) := by
  rcases h : l.dropWhile isJsWs with _ | ⟨c, cs⟩
  · rw [wordsOf_eq_nil l h, wordsOf_eq_nil [] rfl]
  · have hc := head_dropWhile_false_p isJsWs l c cs h
    rw [wordsOf_eq_cons l c cs h]
    rw [wordsOf_eq_cons (c :: cs) c cs (by rw [List.dropWhile_cons, if_neg (by simp [hc])])]

/-- The central sanitization characterization: collapsing whitespace
runs and trimming the ends yields exactly the words of the input
joined by single spaces. -/
lemma trimWs_collapseWs_eq (n : Nat) :
    ∀ l : List Char, l.length ≤ n → trimWs (collapseWs l) = joinWords (wordsOf l) := by
  induction n with
  | zero =>
    intro l hl
    have hnil : l = [] := List.length_eq_zero.mp (Nat.le_zero.mp hl)
    subst hnil
    rw [wordsOf_eq_nil [] rfl]
    rfl
  | succ n ih =>
    intro l hl
    rcases h : l.dropWhile isJsWs with _ | ⟨c, cs⟩
    · have hall : ∀ x ∈ l, isJsWs x = true := List.dropWhile_eq_nil_iff.mp h
      rw [wordsOf_eq_nil l h, collapseWs_all_ws l hall]
      by_cases hl0 : l = []
      · rw [if_pos hl0]; rfl
      · rw [if_neg hl0]; decide
    · have hc := head_dropWhile_false_p isJsWs l c cs h
      have hdec : l.takeWhile isJsWs ++ (c :: cs) = l := by
        conv_rhs => rw [← List.takeWhile_append_dropWhile (p := isJsWs) (l := l)]
        rw [h]
      set a := (c :: cs).takeWhile (fun x => !isJsWs x) with ha_eq
      set r := (c :: cs).dropWhile (fun x => !isJsWs x) with hr_eq
      have har : a ++ r = c :: cs := List.takeWhile_append_dropWhile ..
      have ha_nonws : ∀ x ∈ a, isJsWs x = false := by
        intro x hx
        have := List.mem_takeWhile_imp hx
        simpa using this
      have ha_cons : a = c :: cs.takeWhile (fun x => !isJsWs x) := by
        rw [ha_eq, List.takeWhile_cons, if_pos (by simp [hc])]
      have hcol : collapseWs l =
          (if l.takeWhile isJsWs = [] then [] else [' ']) ++ (a ++ collapseWs r) := by
        conv_lhs => rw [← hdec]
        rw [collapseWs_append_ws _ c cs (fun x hx => List.mem_takeWhile_imp hx) hc]
        congr 1
        conv_lhs => rw [← har]
        rw [collapseWs_append_word a r ha_nonws]
      have hltrim : ltrimWs ((if l.takeWhile isJsWs = [] then [] else [' ']) ++
          (a ++ collapseWs r)) = a ++ collapseWs r := by
        unfold ltrimWs
        rw [List.dropWhile_append]
        have hfront : ((if l.takeWhile isJsWs = [] then ([] : List Char) else [' ']).dropWhile
            isJsWs) = [] := by
          split <;> simp [isJsWs]
        rw [hfront]
        simp only [List.isEmpty_nil, if_pos]
        rw [ha_cons, List.cons_append, List.dropWhile_cons, if_neg (by simp [hc])]
      show trimWs (collapseWs l) = _
      unfold trimWs
      rw [hcol, hltrim, rtrimWs_append_word a _ ha_nonws]
      rw [wordsOf_eq_cons l c cs h, ← ha_eq, ← hr_eq]
      rcases hr : r with _ | ⟨d, ds⟩
      · rw [wordsOf_eq_nil [] rfl]
        show a ++ rtrimWs (collapseWs []) = joinWords [a]
        simp [collapseWs, rtrimWs, joinWords]
      · have hrdrop : List.dropWhile (fun x => !isJsWs x) (c :: cs) = d :: ds := by
          rw [← hr_eq]; exact hr
        have hd : isJsWs d = true := by
          have := head_dropWhile_false_p (fun x => !isJsWs x) (c :: cs) d ds hrdrop
          simpa using this
        have hcolr : collapseWs (d :: ds) = ' ' :: collapseWs (ds.dropWhile isJsWs) :=
          collapseWs_cons_ws ds d hd
        have hwr : wordsOf (d :: ds) = wordsOf (ds.dropWhile isJsWs) := by
          rw [show wordsOf (d :: ds) = wordsOf ((d :: ds).dropWhile isJsWs) from
            wordsOf_dropWhile _]
          rw [List.dropWhile_cons, if_pos hd]
        have hlen : (ds.dropWhile isJsWs).length ≤ n := by
          have h1 : (ds.dropWhile isJsWs).length ≤ ds.length :=
            (List.dropWhile_sublist _).length_le
          have h2 : (d :: ds).length ≤ cs.length + 1 := by
            rw [← hrdrop]
            calc ((c :: cs).dropWhile (fun x => !isJsWs x)).length
                ≤ (c :: cs).length := (List.dropWhile_sublist _).length_le
              _ = cs.length + 1 := rfl
          have h3 : cs.length + 1 ≤ l.length := by
            calc cs.length + 1 = (c :: cs).length := rfl
              _ = (l.dropWhile isJsWs).length := by rw [h]
              _ ≤ l.length := (List.dropWhile_sublist _).length_le
          have h4 : (d :: ds).length = ds.length + 1 := rfl
          omega
        have hIH := ih (ds.dropWhile isJsWs) hlen
        rcases hr2 : ds.dropWhile isJsWs with _ | ⟨e, es⟩
        · rw [hcolr, hr2, hwr, hr2, wordsOf_eq_nil [] rfl]
          show a ++ rtrimWs (' ' :: collapseWs []) = joinWords [a]
          have hsp : rtrimWs (' ' :: collapseWs []) = [] := by decide
          rw [hsp]
          simp [joinWords]
        · have he : isJsWs e = false := head_dropWhile_false_p isJsWs ds e es hr2
          have hw2 : wordsOf (e :: es) = ((e :: es).takeWhile (fun x => !isJsWs x)) ::
              wordsOf ((e :: es).dropWhile (fun x => !isJsWs x)) := by
            apply wordsOf_eq_cons
            rw [List.dropWhile_cons, if_neg (by simp [he])]
          have hcolr2 : collapseWs (e :: es) = e :: collapseWs es := collapseWs_cons_not he es
          have hltr2 : ltrimWs (collapseWs (e :: es)) = collapseWs (e :: es) := by
            rw [hcolr2]
            unfold ltrimWs
            rw [List.dropWhile_cons, if_neg (by simp [he])]
          have hIH2 : rtrimWs (collapseWs (e :: es)) = joinWords (wordsOf (e :: es)) := by
            rw [hr2] at hIH
            unfold trimWs at hIH
            rw [hltr2] at hIH
            exact hIH
          have hw1 : (e :: es).takeWhile (fun x => !isJsWs x) =
              e :: es.takeWhile (fun x => !isJsWs x) := by
            rw [List.takeWhile_cons, if_pos (by simp [he])]
          have hne : (collapseWs (e :: es)).reverse.dropWhile isJsWs ≠ [] := by
            intro hcontra
            have hz : rtrimWs (collapseWs (e :: es)) = [] := by
              unfold rtrimWs
              rw [hcontra]
              rfl
            rw [hIH2, hw2, hw1] at hz
            rcases hrest : wordsOf ((e :: es).dropWhile (fun x => !isJsWs x)) with _ | ⟨w2, ws2⟩
            · rw [hrest] at hz; simp [joinWords] at hz
            · rw [hrest] at hz; simp [joinWords] at hz
          rw [hcolr, hr2, rtrimWs_space_cons _ hne, hIH2, hwr, hr2, hw2]
          rfl

/-- C5: the user message content produced by `sendMessage` is the
input with every maximal whitespace run collapsed to a single space,
ends trimmed and the result capped at 4000 characters (equivalently:
the words of the input joined by single spaces, capped); in
particular the spec's concrete example holds, the cap is never
exceeded, and sanitization is total — every input, empty or
oversized, yields a user message rather than a rejection. -/
theorem c5_sanitized_user_message (raw : String) :
    sanitizeContent raw = specSanitize raw ∧
    (sanitizeContent raw).length ≤ 4000 ∧
    sanitizeContent "   please   tell me about RAG   " = "please tell me about RAG" ∧
    ∀ (ids nows : Nat → String) (latency : Nat) (store0 : ProtocolStore) (configured : Bool)
      (remote : RemoteBehavior) (agentId : String),
      (sendMessage ids nows latency store0 configured remote agentId raw).userMsg.content =
        sanitizeContent raw := by
  refine ⟨?_, ?_, by decide, ?_⟩
  · unfold sanitizeContent specSanitize
    rw [trimWs_collapseWs_eq raw.data.length raw.data le_rfl]
  · show ((trimWs (collapseWs raw.data)).take 4000).length ≤ 4000
    rw [List.length_take]
    exact min_le_left _ _
  · intro ids nows latency store0 configured remote agentId
    cases configured <;> cases remote <;> rfl

/-! ## C9: query reformulation -/

lemma splitOnChar_ne_nil (sep : Char) (l : List Char) : splitOnChar sep l ≠ [] := by
  induction l with
  | nil => simp [splitOnChar]
  | cons c cs ih =>
    rw [splitOnChar]
    cases h : splitOnChar sep cs with
    | nil => exact absurd h ih
    | cons w rest =>
      by_cases hc : c = sep <;> simp [hc]

lemma splitOnChar_not_mem (sep : Char) (l : List Char) :
    ∀ w ∈ splitOnChar sep l, sep ∉ w := by
  induction l with
  | nil =>
    intro w hw
    simp only [splitOnChar, List.mem_singleton] at hw
    simp [hw]
  | cons c cs ih =>
    intro w hw
    rw [splitOnChar] at hw
    cases h : splitOnChar sep cs with
    | nil => exact absurd h (splitOnChar_ne_nil sep cs)
    | cons w2 rest =>
      rw [h] at hw
      have hw2 : w ∈ (if c = sep then ([] :: w2 :: rest) else ((c :: w2) :: rest)) := hw
      clear hw
      rename' hw2 => hw
      by_cases hc : c = sep
      · rw [if_pos hc] at hw
        rcases List.mem_cons.mp hw with hw1 | hw1
        · simp [hw1]
        · exact ih w (h ▸ hw1)
      · rw [if_neg hc] at hw
        rcases List.mem_cons.mp hw with hw1 | hw1
        · have hmem : w2 ∈ splitOnChar sep cs := by rw [h]; exact List.mem_cons_self _ _
          have h2 := ih w2 hmem
          rw [hw1]
          intro hcontra
          rcases List.mem_cons.mp hcontra with he | he
          · exact hc he.symm
          · exact h2 he
        · refine ih w ?_
          rw [h]
          exact List.mem_cons_of_mem _ hw1

lemma splitOnChar_of_not_mem (w : List Char) (h : ' ' ∉ w) :
    splitOnChar ' ' w = [w] := by
  induction w with
  | nil => rfl
  | cons c w2 ih =>
    have hc : c ≠ ' ' := fun he => h (he ▸ List.mem_cons_self c w2)
    have h2 : ' ' ∉ w2 := fun hm => h (List.mem_cons_of_mem c hm)
    rw [splitOnChar, ih h2]
    simp [hc]

lemma splitOnChar_append_sep (w z : List Char) (h : ' ' ∉ w) :
    splitOnChar ' ' (w ++ ' ' :: z) = w :: splitOnChar ' ' z := by
  induction w with
  | nil =>
    rw [List.nil_append, splitOnChar]
    cases h2 : splitOnChar ' ' z with
    | nil => exact absurd h2 (splitOnChar_ne_nil ' ' z)
    | cons w2 rest => simp
  | cons c w2 ih =>
    have hc : c ≠ ' ' := fun he => h (he ▸ List.mem_cons_self c w2)
    have h2 : ' ' ∉ w2 := fun hm => h (List.mem_cons_of_mem c hm)
    rw [List.cons_append, splitOnChar, ih h2]
    simp [hc]

lemma splitOnChar_joinWords (segs : List (List Char)) (hne : segs ≠ [])
    (hsp : ∀ w ∈ segs, ' ' ∉ w) : splitOnChar ' ' (joinWords segs) = segs := by
  induction segs with
  | nil => exact absurd rfl hne
  | cons w rest ih =>
    cases rest with
    | nil =>
      rw [show joinWords [w] = w from rfl]
      exact splitOnChar_of_not_mem w (hsp w (List.mem_cons_self _ _))
    | cons w2 rest2 =>
      rw [show joinWords (w :: w2 :: rest2) = w ++ ' ' :: joinWords (w2 :: rest2) from rfl]
      rw [splitOnChar_append_sep _ _ (hsp w (List.mem_cons_self _ _))]
      rw [ih (by simp) (fun x hx => hsp x (List.mem_cons_of_mem _ hx))]

/-- C9: the reformulated retrieval query of the spec's example is
`"tell me about rag"`, and for every input the reformulation keeps at
most the first 10 whitespace-separated tokens (splitting the result on
spaces yields at most 10 segments). -/
theorem c9_rewriteQueryForRetrieval (text : String) :
    rewriteQueryForRetrieval "please tell me about RAG" = "tell me about rag" ∧
    (splitOnChar ' ' (rewriteQueryForRetrieval text).data).length ≤ 10 := by
  constructor
  · decide
  · have hdef : (rewriteQueryForRetrieval text).data =
        joinWords ((splitOnChar ' '
          (trimWs (collapseWs ((stripFillers false (text.data.map Char.toLower)).map
            replaceNonAlnum)))).take 10) := rfl
    rw [hdef]
    rw [splitOnChar_joinWords _ ?hne ?hsp]
    case hne =>
      cases h : splitOnChar ' ' (trimWs (collapseWs
          ((stripFillers false (text.data.map Char.toLower)).map replaceNonAlnum))) with
      | nil => exact absurd h (splitOnChar_ne_nil _ _)
      | cons w rest => simp
    case hsp =>
      intro w hw
      exact splitOnChar_not_mem ' ' _ w (List.mem_of_mem_take hw)
    · rw [List.length_take]
      exact min_le_left _ _
